import Mathlib

/-!
Shallow embedding of the trajectory-statistics module `mr/core/motion.py`
(functions `msd`, `imsd`, `emsd`, `tp_corr`, `_tp_corr`, `subtract_drift`,
`vanhove`, `is_not_dirt`) together with theorems settling the claims about it.

Conventions of the embedding:
* pixel coordinates and all tabular numeric values are rationals (`ℚ`),
  standing for the floats of the source; `NaN` (pandas missing values)
  is `Option.none`;
* quantities that the source computes with `np.sqrt` live in `ℝ`;
* a single-probe trajectory (`traj` indexed by `frame`, as produced by
  `traj.set_index('frame')` in `imsd`/`emsd`) is a list of
  `(frame, position)` pairs in frame order.
-/

/-- A 2-d position (columns `x`, `y` of the trajectory table), in pixels. -/
structure Pt where
  x : ℚ
  y : ℚ
deriving DecidableEq, Repr

/-- One probe's trajectory: `(frame, position)` records, indexed by frame. -/
abbrev PTraj := List (ℤ × Pt)

/-- Label-based lookup of a frame in a frame-indexed position series
(the alignment primitive behind `reindex` / `.loc`). -/
def lookupFrame (f : ℤ) (s : PTraj) : Option Pt :=
  (s.find? (fun r => r.1 == f)).map Prod.snd

/-- `np.arange a b` over the integers: `[a, a+1, ..., b-1]`. -/
def arange (a b : ℤ) : List ℤ :=
  (List.range (b - a).toNat).map (fun i : ℕ => a + (i : ℤ))

/-- `pos.reindex(np.arange(pos.index[0], 1 + pos.index[-1]))` (motion.py
line 60): densify a frame-indexed series onto every integer frame from the
first to the last observed frame, with `none` (NaN) in the gaps. -/
def reindex (s : PTraj) : List (ℤ × Option Pt) :=
  match s with
  | [] => []
  | r :: t =>
      (arange r.1 (1 + ((r :: t).getLast (List.cons_ne_nil r t)).1)).map
        (fun f => (f, lookupFrame f (r :: t)))

/-- Elementwise NaN-propagating subtraction of positions (pandas `sub`). -/
def optSub : Option Pt → Option Pt → Option Pt
  | some a, some b => some ⟨a.x - b.x, a.y - b.y⟩
  | _, _ => none

/-- `pos.shift(lt)`: push values down by `lt` slots, filling with NaN. -/
def shiftList (l : List (Option Pt)) (lt : ℕ) : List (Option Pt) :=
  List.replicate lt none ++ l.take (l.length - lt)

/-- `pos.sub(pos.shift(lt))` on the densified series (motion.py line 63),
kept together with its frame index. -/
def dispTable (s : PTraj) (lt : ℕ) : List (ℤ × Option Pt) :=
  let dens := reindex s
  let vals := dens.map Prod.snd
  List.zipWith (fun fr d => (fr.1, d)) dens (List.zipWith optSub vals (shiftList vals lt))

/-- The displacement values at lag `lt`, in frame order. -/
def dispSeries (s : PTraj) (lt : ℕ) : List (Option Pt) :=
  (dispTable s lt).map Prod.snd

/-- pandas NaN-skipping mean of a column: `none` iff every entry is missing. -/
def meanOpt (l : List (Option ℚ)) : Option ℚ :=
  let v := l.filterMap id
  if v.isEmpty then none else some (v.sum / (v.length : ℚ))

/-- pandas `count`: number of non-missing entries of a column. -/
def countSome (l : List (Option ℚ)) : ℕ := (l.filterMap id).length

/-- pandas NaN-skipping mean of a plain list. -/
def meanQ (l : List ℚ) : ℚ := l.sum / (l.length : ℚ)

/-- One row of the table built by `msd` (motion.py lines 62-73): index `lag`
(in frames) and the columns `<x>`, `<y>`, `<x^2>`, `<y^2>`, `msd`, `N`
(present only when `detail`), `lagt`. -/
structure MsdRow where
  lag : ℕ
  mx : Option ℚ
  my : Option ℚ
  mx2 : Option ℚ
  my2 : Option ℚ
  msdVal : ℚ
  N : Option ℚ
  lagt : ℚ
deriving DecidableEq, Repr

/-- The row of `msd`'s result table at lag `lt`.

`kmax` is the number of lags explored, `min max_lagtime (len t)`.  The `N`
column reproduces line 71,
`2*disp.icol(0).count(level=0).div(Series(lagtimes))`: the count series is
labelled by the lag values `1..kmax` while `Series(lagtimes)` is labelled by
positions `0..kmax-1` holding the values `1..kmax`, so label alignment divides
the count at lag `lt` by `lagtimes[lt] = lt+1` when `lt < kmax` and yields NaN
(no matching label) when `lt = kmax`.

The `msd` column reproduces line 68: a NaN-skipping `.sum(1)` of the two
squared-displacement means, which treats an all-missing mean as 0. -/
def msdRow (s : PTraj) (mpp fps : ℚ) (detail : Bool) (kmax : ℕ) (lt : ℕ) : MsdRow :=
  let d := dispSeries s lt
  let dx := d.map (fun o => o.map Pt.x)
  let dy := d.map (fun o => o.map Pt.y)
  let dx2 := dx.map (fun o => o.map (fun v => v * v))
  let dy2 := dy.map (fun o => o.map (fun v => v * v))
  { lag := lt
    mx := (meanOpt dx).map (fun m => mpp * m)
    my := (meanOpt dy).map (fun m => mpp * m)
    mx2 := (meanOpt dx2).map (fun m => mpp ^ 2 * m)
    my2 := (meanOpt dy2).map (fun m => mpp ^ 2 * m)
    msdVal := mpp ^ 2 * ((meanOpt dx2).getD 0 + (meanOpt dy2).getD 0)
    N := if detail then
           (if lt < kmax then some (2 * (countSome dx : ℚ) / ((lt : ℚ) + 1)) else none)
         else none
    lagt := (lt : ℚ) / fps }

/-- `lagtimes = 1 + np.arange(min(max_lagtime, len(t)))` (lines 61-62). -/
def msdLagtimes (s : PTraj) (maxlag : ℕ) : List ℕ :=
  (List.range (min maxlag s.length)).map (fun i => i + 1)

/-- The full results table of `msd`, before the final `results[:-1]`. -/
def msdRows (s : PTraj) (mpp fps : ℚ) (detail : Bool) (maxlag : ℕ) : List MsdRow :=
  (msdLagtimes s maxlag).map (msdRow s mpp fps detail (min maxlag s.length))

/-- `msd(traj, mpp, fps, max_lagtime, detail)`: the table actually returned,
with the final lag row dropped (`return results[:-1]`, line 73). -/
def msdOutput (s : PTraj) (mpp fps : ℚ) (detail : Bool) (maxlag : ℕ) : List MsdRow :=
  (msdRows s mpp fps detail maxlag).dropLast

/-- Insert into a sorted list (helper for modelling pandas sorted groupby). -/
def insertSorted [LinearOrder α] (a : α) : List α → List α
  | [] => [a]
  | b :: l => if a ≤ b then a :: b :: l else b :: insertSorted a l

/-- Ascending sort (pandas groupby sorts its keys ascending). -/
def sortList [LinearOrder α] : List α → List α
  | [] => []
  | a :: l => insertSorted a (sortList l)

/-- One record of the multi-probe trajectory table: columns
`probe`, `frame`, `x`, `y`. -/
structure TrajRec where
  probe : ℤ
  frame : ℤ
  x : ℚ
  y : ℚ
deriving DecidableEq, Repr

/-- The distinct probe ids of a trajectory table, ascending — the group keys
of `traj.groupby('probe')`. -/
def probeIds (T : List TrajRec) : List ℤ :=
  sortList (T.map TrajRec.probe).dedup

/-- The sub-table of one probe, reindexed by frame (`groupby` after
`traj.set_index('frame', ...)` hands each group to `msd` frame-indexed). -/
def ptrajOf (T : List TrajRec) (p : ℤ) : PTraj :=
  (T.filter (fun r => r.probe == p)).map (fun r => (r.frame, ⟨r.x, r.y⟩))

/-- `traj.groupby('probe')`: probe ids ascending, each with its sub-table. -/
def groupByProbe (T : List TrajRec) : List (ℤ × PTraj) :=
  (probeIds T).map (fun p => (p, ptrajOf T p))

/-- Label lookup of the row at integer lag `L` in one probe's msd table. -/
def rowAt (tb : List MsdRow) (L : ℕ) : Option MsdRow :=
  tb.find? (fun r => r.lag == L)

/-- All integer lags occurring in any probe's msd table, ascending: the
group keys of the `mean(level=1)` aggregations in `emsd` (lines 142-143). -/
def allLags (tables : List (List MsdRow)) : List ℕ :=
  sortList ((tables.map (fun tb => tb.map MsdRow.lag)).flatten).dedup

/-- One row of the table built by `emsd` (lines 141-147).  `lagKey` is the
`frame` index level it is grouped on (the integer lag); the columns are the
weighted aggregates of the per-probe columns. -/
structure EmsdRow where
  lagKey : ℕ
  mx : Option ℚ
  my : Option ℚ
  mx2 : Option ℚ
  my2 : Option ℚ
  msdVal : ℚ
  N : ℚ
  lagt : ℚ
deriving DecidableEq, Repr

/-- The `emsd` aggregation at one lag, from the per-probe msd tables:
`msds.mul(msds['N'], axis=0).mean(level=1)` divided by
`msds['N'].mean(level=1)` (lines 142-143).  Probes without a row at this lag
are absent from both means; NaN column values are skipped by `mean` but kept
in the denominator count of their own column only.  Since `emsd` always runs
`msd` with `detail=True`, every present row has `N = some _`; `getD 0` is
never exercised.  Note the `N` column itself gets weighted too (`N*N`), and
`lagt` is reconstituted as a weighted mean — exactly as the lumped pandas
arithmetic does it. -/
def emsdRowAt (tables : List (List MsdRow)) (L : ℕ) : EmsdRow :=
  let present := tables.filterMap (fun tb => rowAt tb L)
  let wOf : MsdRow → ℚ := fun r => r.N.getD 0
  let den := meanQ (present.map wOf)
  { lagKey := L
    mx := (meanOpt (present.map (fun r => r.mx.map (· * wOf r)))).map (· / den)
    my := (meanOpt (present.map (fun r => r.my.map (· * wOf r)))).map (· / den)
    mx2 := (meanOpt (present.map (fun r => r.mx2.map (· * wOf r)))).map (· / den)
    my2 := (meanOpt (present.map (fun r => r.my2.map (· * wOf r)))).map (· / den)
    msdVal := meanQ (present.map (fun r => r.msdVal * wOf r)) / den
    N := meanQ (present.map (fun r => wOf r * wOf r)) / den
    lagt := meanQ (present.map (fun r => r.lagt * wOf r)) / den }

/-- The per-probe msd tables `emsd` concatenates (lines 138-141): one
`msd(ptraj, mpp, fps, max_lagtime, True)` table per probe, probes ascending. -/
def emsdTables (T : List TrajRec) (mpp fps : ℚ) (maxlag : ℕ) : List (List MsdRow) :=
  (groupByProbe T).map (fun pr => msdOutput pr.2 mpp fps true maxlag)

/-- The full `emsd` results table, one row per lag present in any probe. -/
def emsdRows (T : List TrajRec) (mpp fps : ℚ) (maxlag : ℕ) : List EmsdRow :=
  (allLags (emsdTables T mpp fps maxlag)).map (emsdRowAt (emsdTables T mpp fps maxlag))

/-- The ensemble MSD (`results['msd']`, line 149) at integer lag `L`. -/
def emsdMsdAt (T : List TrajRec) (mpp fps : ℚ) (maxlag : ℕ) (L : ℕ) : Option ℚ :=
  ((emsdRows T mpp fps maxlag).find? (fun row => row.lagKey == L)).map EmsdRow.msdVal

/-- A pandas DataFrame of trajectories as the caller holds it: an explicit
row index plus the records.  (A fresh table has `index = [0, 1, ...]`.) -/
structure Table where
  index : List ℤ
  recs : List TrajRec
deriving DecidableEq, Repr

/-- `traj.set_index('frame', inplace=True, drop=False)`: the index becomes
the `frame` column; `drop=False` keeps the column, so the records are
untouched. -/
def setIndexFrame (t : Table) : Table :=
  { index := t.recs.map TrajRec.frame, recs := t.recs }

/-- The state of the CALLER's table after `imsd(traj, ...)` returns: line 98
runs `set_index('frame', inplace=True, drop=False)` on the caller's object;
everything after it builds new frames. -/
def imsdInputAfter (t : Table) : Table := setIndexFrame t

/-- The state of the caller's table after `emsd(traj, ...)` returns (line
135 is the same in-place `set_index`). -/
def emsdInputAfter (t : Table) : Table := setIndexFrame t

/-- Label lookup of the drift value at a frame (drift tables, like the
output of `compute_drift`, have a unique frame index). -/
def lookupDrift (f : ℤ) (drift : List (ℤ × ℚ × ℚ)) : Option (ℚ × ℚ) :=
  (drift.find? (fun d => d.1 == f)).map Prod.snd

/-- `subtract_drift(traj, drift)` (line 295):
`traj.set_index('frame', drop=False).sub(drift, fill_value=0)`.
`sub` aligns on the frame index and on columns: `drift` has only `x` and `y`
columns, so `probe` and `frame` are diminished by the fill value 0, i.e.
unchanged; `x`, `y` lose the drift at their frame, or 0 where the drift
curve has no value.  (Drift frames absent from `traj` would contribute extra
all-NaN-probe rows under the pandas union-alignment; the claims quantify
over the input's records, which this map is the faithful image of.) -/
def subtract_drift (traj : List TrajRec) (drift : List (ℤ × ℚ × ℚ)) : List TrajRec :=
  traj.map (fun r =>
    { probe := r.probe - 0
      frame := r.frame - 0
      x := r.x - ((lookupDrift r.frame drift).map Prod.fst).getD 0
      y := r.y - ((lookupDrift r.frame drift).map Prod.snd).getD 0 })

/-- `np.max` over an integer index; `none` models the ValueError that numpy
raises on an empty index. -/
def listMaxZ : List ℤ → Option ℤ
  | [] => none
  | a :: l => some (l.foldl max a)

/-- Densify a multi-column position table (one column per probe, indexed by
frame) onto consecutive frames — `vanhove`'s line 358 reindex.  `w` is the
column count, used to fill all-NaN rows at gap frames. -/
def reindexRows (rows : List (ℤ × List (Option ℚ))) (w : ℕ) :
    List (ℤ × List (Option ℚ)) :=
  match rows with
  | [] => []
  | r :: t =>
      (arange r.1 (1 + ((r :: t).getLast (List.cons_ne_nil r t)).1)).map
        (fun f => (f, (((r :: t).find? (fun q => q.1 == f)).map Prod.snd).getD
          (List.replicate w none)))

/-- `mpp*pos.sub(pos.shift(lagtime))` (line 361) on the densified table. -/
def dispRowsQ (dense : List (ℤ × List (Option ℚ))) (lag : ℤ) (mpp : ℚ) :
    List (ℤ × List (Option ℚ)) :=
  (List.range dense.length).map (fun i =>
    match dense.get? i with
    | some (f, vs) =>
        let prev : List (Option ℚ) :=
          if 0 ≤ (i : ℤ) - lag ∧ (i : ℤ) - lag < (dense.length : ℤ) then
            match dense.get? ((i : ℤ) - lag).toNat with
            | some (_, pv) => pv
            | none => List.replicate vs.length none
          else List.replicate vs.length none
        (f, List.zipWith (fun a b =>
          match a, b with
          | some xv, some yv => some (mpp * (xv - yv))
          | _, _ => none) vs prev)
    | none => (0, []))

/-- The guarded head of `vanhove(pos, lagtime, mpp, ...)` (lines 357-361):
reindex onto consecutive frames, then
`assert lagtime <= pos.index.values.max()`.  On success the (mpp-scaled)
single-lag displacement table is handed on to the histogramming tail, which
involves no further failure mode modelled by the claims.  (On failure the
source's message interpolation `% frame` even references an undefined name,
so the error that escapes is a `NameError`; either way a table is NOT
returned.) -/
def vanhove (rows : List (ℤ × List (Option ℚ))) (lagtime : ℤ) (mpp : ℚ) :
    Except String (List (ℤ × List (Option ℚ))) :=
  let w := (rows.head?.map (fun r => r.2.length)).getD 0
  let dense := reindexRows rows w
  match listMaxZ (dense.map Prod.fst) with
  | none => Except.error "max of an empty index"
  | some m =>
      if lagtime ≤ m then Except.ok (dispRowsQ dense lagtime mpp)
      else Except.error "There is a no data out to frame "

/-- Did the call return a table (`ok`) rather than raise? -/
def exceptOk : Except String γ → Bool
  | Except.ok _ => true
  | Except.error _ => false

/-- Max of a rational column (`agg(['max', 'min'])` on a nonempty group). -/
def listMaxQ : List ℚ → ℚ
  | [] => 0
  | a :: l => l.foldl max a

/-- Min of a rational column. -/
def listMinQ : List ℚ → ℚ
  | [] => 0
  | a :: l => l.foldl min a

/-- `is_not_dirt`'s bounding-box diagonal of one probe's visited extent
(lines 399-401): `sqrt((xmax-xmin)**2 + (ymax-ymin)**2)`, in pixels. -/
noncomputable def diagSize (s : PTraj) : ℝ :=
  Real.sqrt
    (((listMaxQ (s.map (fun r => r.2.x)) - listMinQ (s.map (fun r => r.2.x)) : ℚ) : ℝ) ^ 2 +
     ((listMaxQ (s.map (fun r => r.2.y)) - listMinQ (s.map (fun r => r.2.y)) : ℚ) : ℝ) ^ 2)

/-- The entry of `is_not_dirt(traj, threshold, mpp)`'s boolean Series for
one probe: `diag_size > threshold` (line 402).  The `mpp` parameter is
accepted but never used by the source (its docstring says "assumed to be
1"), so it is an unused argument here too. -/
noncomputable def isNotDirtProbe (s : PTraj) (threshold mpp : ℚ) : Prop :=
  diagSize s > (threshold : ℝ)

/-- The full boolean Series of `is_not_dirt`, indexed by probe id. -/
noncomputable def is_not_dirt (T : List TrajRec) (threshold mpp : ℚ) :
    List (ℤ × Prop) :=
  (probeIds T).map (fun p => (p, isNotDirtProbe (ptrajOf T p) threshold mpp))

/-- `_tp_corr`'s radial correlation `para` for one probe pair at one frame
(lines 228-231): `R_vec = pos1 - pos2`, `R = sqrt(R_x**2 + R_y**2)`,
`n = R_vec/R`, `para = (d1·n)(d2·n)`. -/
noncomputable def tpPara (r1 r2 d1 d2 : ℝ × ℝ) : ℝ :=
  let Rx := r1.1 - r2.1
  let Ry := r1.2 - r2.2
  let R := Real.sqrt (Rx ^ 2 + Ry ^ 2)
  let nx := Rx / R
  let ny := Ry / R
  (d1.1 * nx + d1.2 * ny) * (d2.1 * nx + d2.2 * ny)

/-- `_tp_corr`'s tangential correlation `perp` (lines 232-233):
`p = (n_y, -n_x)`, `perp = (d1·p)(d2·p)`. -/
noncomputable def tpPerp (r1 r2 d1 d2 : ℝ × ℝ) : ℝ :=
  let Rx := r1.1 - r2.1
  let Ry := r1.2 - r2.2
  let R := Real.sqrt (Rx ^ 2 + Ry ^ 2)
  let nx := Rx / R
  let ny := Ry / R
  let px := ny
  let py := -nx
  (d1.1 * px + d1.2 * py) * (d2.1 * px + d2.2 * py)

/-- The pair separation `R` (line 229). -/
noncomputable def tpR (r1 r2 : ℝ × ℝ) : ℝ :=
  Real.sqrt ((r1.1 - r2.1) ^ 2 + (r1.2 - r2.2) ^ 2)

/-- One row of `_tp_corr`'s output `D`: columns `R`, `para`, `perp`. -/
structure TpRow where
  R : ℝ
  para : ℝ
  perp : ℝ

/-- Cast a pixel position to the real plane. -/
noncomputable def ptR (p : Pt) : ℝ × ℝ := ((p.x : ℝ), (p.y : ℝ))

/-- The `(R, para, perp)` row for one pair at one frame. -/
noncomputable def tpRowAt (p1 p2 d1 d2 : Pt) : TpRow :=
  ⟨tpR (ptR p1) (ptR p2), tpPara (ptR p1) (ptR p2) (ptR d1) (ptR d2),
   tpPerp (ptR p1) (ptR p2) (ptR d1) (ptR d2)⟩

/-- Label lookup in the densified position series (`dr[(p, 'x')]` etc. after
the axis-1 concat aligns the probes' frame ranges; frames outside a probe's
range or in its gaps read as NaN). -/
def posLookup (s : PTraj) (f : ℤ) : Option Pt :=
  (((reindex s).find? (fun r => r.1 == f)).map Prod.snd).bind id

/-- Label lookup in the lag-`lt` displacement columns (`dr[(p, 'dx')]`). -/
def dispLookup (s : PTraj) (lt : ℕ) (f : ℤ) : Option Pt :=
  (((dispTable s lt).find? (fun r => r.1 == f)).map Prod.snd).bind id

/-- The union of the two probes' densified frame indexes, ascending — the
row index of the axis-1 `pd.concat` at line 222. -/
def unionFrames (s1 s2 : PTraj) : List ℤ :=
  sortList (((reindex s1).map Prod.fst ++ (reindex s2).map Prod.fst)).dedup

/-- The frames of a pair that survive `dropna()` (line 234), with the data
entering the row: both positions and both displacements present.  When the
positions coincide the unit separation vector is NaN (`0/0`), which makes
`para`/`perp` NaN and the row is likewise dropped — hence the `p1 = p2`
exclusion. -/
def tpPairData (s1 s2 : PTraj) (lt : ℕ) : List (Pt × Pt × Pt × Pt) :=
  (unionFrames s1 s2).filterMap (fun f =>
    match posLookup s1 f, posLookup s2 f, dispLookup s1 lt f, dispLookup s2 lt f with
    | some p1, some p2, some d1, some d2 =>
        if p1 = p2 then none else some (p1, p2, d1, d2)
    | _, _, _, _ => none)

/-- The `(R, para, perp)` rows of one probe pair at lag `lt`. -/
noncomputable def tpPairRows (s1 s2 : PTraj) (lt : ℕ) : List TpRow :=
  (tpPairData s1 s2 lt).map (fun q => tpRowAt q.1 q.2.1 q.2.2.1 q.2.2.2)

/-- All unordered pairs `(p1, p2)` with `p1` before `p2` — the double loop
`for p1 in probe_ids: for p2 in probe_ids[probe_ids > p1]` over the sorted
distinct ids (lines 226-227). -/
def pairsOf : List ℤ → List (ℤ × ℤ)
  | [] => []
  | a :: l => (l.map (fun b => (a, b))) ++ pairsOf l

/-- `_tp_corr(traj, lagframe, bins=False)`: concatenated rows of every pair
(line 235), in pixel units. -/
noncomputable def tpCorrRaw (T : List TrajRec) (lt : ℕ) : List TpRow :=
  ((pairsOf (probeIds T)).map
    (fun pr => tpPairRows (ptrajOf T pr.1) (ptrajOf T pr.2) lt)).flatten

/-- `tp_corr(traj, mpp, fps, lagframes, bins=False)` (lines 204-208): the
per-lag `_tp_corr` tables concatenated and then `result *= mpp`, which
multiplies every column — `R`, `para` AND `perp` — by `mpp` once.  (The
lagtime keys `lagframes/fps` computed at line 204 are discarded by the
concat's `ignore_index=True`, so `fps` does not reach the output.) -/
noncomputable def tp_corr (T : List TrajRec) (mpp fps : ℚ) (lagframes : List ℕ) :
    List TpRow :=
  ((lagframes.map (fun lf => (tpCorrRaw T lf).map
    (fun r => TpRow.mk ((mpp : ℝ) * r.R) ((mpp : ℝ) * r.para) ((mpp : ℝ) * r.perp)))).flatten)

/-- The end-to-end trajectory of claim scenario: one probe, frames 0..4,
positions (0,0),(1,0),(2,0),(3,0),(4,0). -/
def traj5 : PTraj :=
  [(0, ⟨0, 0⟩), (1, ⟨1, 0⟩), (2, ⟨2, 0⟩), (3, ⟨3, 0⟩), (4, ⟨4, 0⟩)]

/-- `[f0, f0+1, ..., f0+n-1]`: the frame index of a gap-free trajectory. -/
def intRange (f0 : ℤ) : ℕ → List ℤ
  | 0 => []
  | n + 1 => f0 :: intRange (f0 + 1) n

/-- A gap-free trajectory: positions `ps` on the consecutive frames
starting at `f0`. -/
def consecTraj (f0 : ℤ) (ps : List Pt) : PTraj :=
  List.zip (intRange f0 ps.length) ps

/-- Two-probe table for the ensemble-average witness: probe 1 moves one
pixel per frame, probe 2 two pixels per frame, frames 0..2. -/
def emsdT : List TrajRec :=
  [⟨1, 0, 0, 0⟩, ⟨1, 1, 1, 0⟩, ⟨1, 2, 2, 0⟩,
   ⟨2, 0, 0, 0⟩, ⟨2, 1, 2, 0⟩, ⟨2, 2, 4, 0⟩]

/-- Two probes one pixel apart translating together upward: identical
displacement (0,1), perpendicular to their separation. -/
def T3 : List TrajRec :=
  [⟨1, 0, 0, 0⟩, ⟨1, 1, 0, 1⟩, ⟨2, 0, 1, 0⟩, ⟨2, 1, 1, 1⟩]

/-- Two probes five pixels apart moving one pixel along their separation. -/
def T2 : List TrajRec :=
  [⟨1, 0, 0, 0⟩, ⟨1, 1, 1, 0⟩, ⟨2, 0, 5, 0⟩, ⟨2, 1, 6, 0⟩]

/-- A probe visiting exactly two points five pixels apart. -/
def dirtTraj : PTraj := [(0, ⟨0, 0⟩), (1, ⟨5, 0⟩)]

/-- A one-column position table on frames 10..12 (span 2). -/
def vrows : List (ℤ × List (Option ℚ)) :=
  [(10, [some 0]), (11, [some 0]), (12, [some 0])]

/-- A caller's table whose index `[0]` differs from its frame column `[5]`. -/
def t9 : Table := ⟨[0], [⟨7, 5, 1, 2⟩]⟩

/-- A caller's table whose index already equals its frame column. -/
def t9b : Table := ⟨[5], [⟨7, 5, 1, 2⟩]⟩

/-- One-record trajectory for the drift-subtraction witness. -/
def extraj : List TrajRec := [⟨1, 0, 10, 20⟩]

/-- Drift curve holding (1, 2) at frame 0. -/
def exdrift : List (ℤ × ℚ × ℚ) := [(0, 1, 2)]

/-! ### Helper lemmas -/

theorem mem_insertSorted [LinearOrder α] (a b : α) (l : List α) :
    b ∈ insertSorted a l ↔ b = a ∨ b ∈ l := by
  induction l with
  | nil => simp [insertSorted]
  | cons c t ih =>
      by_cases h : a ≤ c
      · simp [insertSorted, h]
      · simp only [insertSorted, if_neg h, List.mem_cons, ih]
        tauto

theorem mem_sortList [LinearOrder α] (a : α) (l : List α) :
    a ∈ sortList l ↔ a ∈ l := by
  induction l with
  | nil => simp [sortList]
  | cons b t ih => simp [sortList, mem_insertSorted, ih]

/-- `find?` by a key over a list built by mapping a key-respecting builder
over the key list finds the builder's value. -/
theorem find?_key_map {β : Type} (key : β → ℕ) (g : ℕ → β)
    (hkey : ∀ a, key (g a) = a) (L : ℕ) (ls : List ℕ) (hL : L ∈ ls) :
    (ls.map g).find? (fun row => key row == L) = some (g L) := by
  induction ls with
  | nil => cases hL
  | cons a t ih =>
      by_cases h : a = L
      · subst h
        simp [List.find?_cons, hkey]
      · have ht : L ∈ t := by
          rcases List.mem_cons.mp hL with h' | h'
          · exact absurd h'.symm h
          · exact h'
        simpa [List.find?_cons, hkey, h] using ih ht

theorem div_half_div_half (a b : ℚ) : (a / 2) / (b / 2) = a / b := by
  rcases eq_or_ne b 0 with hb | hb
  · simp [hb]
  · field_simp

theorem listMaxZ_append_one (l : List ℤ) (x : ℤ) :
    listMaxZ (l ++ [x]) = some (max ((listMaxZ l).getD x) x) := by
  cases l with
  | nil => simp [listMaxZ]
  | cons a t => simp [listMaxZ, List.foldl_append]

theorem listMaxZ_intRange (k : ℕ) (a : ℤ) :
    listMaxZ ((List.range (k + 1)).map (fun i : ℕ => a + (i : ℤ))) = some (a + k) := by
  induction k with
  | zero =>
      rw [show List.range 1 = [0] from rfl]
      simp [listMaxZ]
  | succ k ih =>
      rw [List.range_succ, List.map_append]
      simp only [List.map_cons, List.map_nil]
      rw [listMaxZ_append_one, ih]
      simp only [Option.getD_some]
      congr 1
      have h : a + (k : ℤ) ≤ a + ((k : ℕ) + 1 : ℕ) := by push_cast; omega
      rw [max_eq_right h]

theorem listMaxZ_arange (a m : ℤ) (h : a ≤ m) :
    listMaxZ (arange a (1 + m)) = some m := by
  unfold arange
  have hc : (1 + m - a).toNat = (m - a).toNat + 1 := by omega
  rw [hc, listMaxZ_intRange]
  congr 1
  omega

theorem intRange_length (f0 : ℤ) (n : ℕ) : (intRange f0 n).length = n := by
  induction n generalizing f0 with
  | zero => rfl
  | succ n ih => simp [intRange, ih]

theorem consecTraj_cons (f0 : ℤ) (p : Pt) (ps : List Pt) :
    consecTraj f0 (p :: ps) = (f0, p) :: consecTraj (f0 + 1) ps := by
  simp [consecTraj, intRange]

theorem consecTraj_last_frame (f0 : ℤ) (p : Pt) (ps : List Pt) :
    ((consecTraj f0 (p :: ps)).getLast?).map Prod.fst = some (f0 + ps.length) := by
  induction ps generalizing f0 p with
  | nil => simp [consecTraj, intRange]
  | cons q t ih =>
      rw [consecTraj_cons f0 p (q :: t), consecTraj_cons (f0 + 1) q t,
        List.getLast?_cons_cons, ← consecTraj_cons (f0 + 1) q t]
      rw [ih (f0 + 1) q]
      congr 1
      simp only [List.length_cons]
      push_cast
      ring

theorem consecTraj_lookup (ps : List Pt) (f0 : ℤ) (i : ℕ) :
    lookupFrame (f0 + (i : ℤ)) (consecTraj f0 ps) = ps.get? i := by
  induction ps generalizing f0 i with
  | nil => simp [consecTraj, intRange, lookupFrame]
  | cons p t ih =>
      rw [consecTraj_cons]
      cases i with
      | zero => simp [lookupFrame, List.find?_cons]
      | succ j =>
          have hne : (f0 == f0 + ((j : ℕ) + 1 : ℕ)) = false := by
            simp only [beq_eq_false_iff_ne, ne_eq]
            push_cast
            omega
          have : f0 + ((j : ℕ) + 1 : ℕ) = (f0 + 1) + (j : ℤ) := by push_cast; ring
          simp only [lookupFrame, List.find?_cons] at ih ⊢
          rw [show ((f0, p).1 == f0 + ((j + 1 : ℕ) : ℤ)) = false by exact_mod_cast hne]
          rw [show f0 + ((j + 1 : ℕ) : ℤ) = (f0 + 1) + (j : ℤ) by push_cast; ring]
          exact ih (f0 + 1) j

theorem consecTraj_get? (ps : List Pt) (f0 : ℤ) (i : ℕ) :
    (consecTraj f0 ps).get? i = (ps.get? i).map (fun p => (f0 + (i : ℤ), p)) := by
  induction ps generalizing f0 i with
  | nil => simp [consecTraj, intRange]
  | cons p t ih =>
      rw [consecTraj_cons]
      cases i with
      | zero => simp
      | succ j =>
          simp only [List.get?_cons_succ]
          rw [ih (f0 + 1) j]
          cases t.get? j <;> simp <;> push_cast <;> ring_nf

/-! ### Claim theorems -/

/-- Claim C2: `msd` drops the final lag row (lag = max_lagtime) from its
output; for one probe with frames 0..4 at positions
(0,0),(1,0),(2,0),(3,0),(4,0), with mpp=1, fps=1, max_lagtime=2, `msd`
returns exactly one row, for lag 1, with <x>=1, <y>=0, <x^2>=1, <y^2>=0,
msd=1, and no lag-2 row. -/
theorem msd_drops_final_lag_row :
    msdOutput traj5 1 1 false 2 =
      [{ lag := 1, mx := some 1, my := some 0, mx2 := some 1, my2 := some 0,
         msdVal := 1, N := none, lagt := 1 }] := by
  have hr : reindex traj5 =
      [(0, some ⟨0, 0⟩), (1, some ⟨1, 0⟩), (2, some ⟨2, 0⟩),
       (3, some ⟨3, 0⟩), (4, some ⟨4, 0⟩)] := by decide
  have hl : msdLagtimes traj5 2 = [1, 2] := by decide
  have hm : min 2 traj5.length = 2 := by decide
  simp only [msdOutput, msdRows, hl, hm, List.map_cons, List.map_nil]
  norm_num [msdRow, dispSeries, dispTable, hr, shiftList, optSub, meanOpt,
    countSome, List.filterMap_cons, List.sum_cons, MsdRow.mk.injEq,
    Pt.mk.injEq]

/-- Claim C8: for every single-probe trajectory (possibly with frame gaps)
and requested max_lagtime, `msd` explores exactly the lags
`1..min(requested max_lagtime, total frame count)`, where the total frame
count is the number of frames carrying a record (`len(t)`, line 61). -/
theorem msd_explored_lags (s : PTraj) (mpp fps : ℚ) (detail : Bool)
    (maxlag L : ℕ) :
    (msdRows s mpp fps detail maxlag).map MsdRow.lag = msdLagtimes s maxlag ∧
    (L ∈ msdLagtimes s maxlag ↔ 1 ≤ L ∧ L ≤ min maxlag s.length) := by
  constructor
  · simp only [msdRows, List.map_map]
    have h : MsdRow.lag ∘ msdRow s mpp fps detail (min maxlag s.length) = id := by
      funext lt
      rfl
    rw [h, List.map_id]
  · simp only [msdLagtimes, List.mem_map, List.mem_range]
    constructor
    · rintro ⟨i, hi, rfl⟩
      omega
    · rintro ⟨h1, h2⟩
      exact ⟨L - 1, by omega, by omega⟩

/-- Claim C8 witness: the explored lags at a concrete input. -/
theorem msd_explored_lags_witness :
    (msdRows traj5 1 1 false 2).map MsdRow.lag = msdLagtimes traj5 2 ∧
    (1 ∈ msdLagtimes traj5 2 ↔ 1 ≤ 1 ∧ 1 ≤ min 2 traj5.length) :=
  msd_explored_lags traj5 1 1 false 2 1

/-- Claim C9 counterexample: `imsd`/`emsd` do NOT leave the caller's table
unchanged — the in-place `set_index('frame')` replaces its index. -/
theorem imsd_emsd_mutate_input :
    imsdInputAfter t9 ≠ t9 ∧ emsdInputAfter t9 ≠ t9 := by
  constructor
  all_goals
    intro h
    have h2 := congrArg Table.index h
    revert h2
    decide

/-- Claim C9 (amended): `imsd` and `emsd` mutate the caller's table only by
setting its index to the frame column in place (line 98 resp. 135); the
records (probe, frame, x, y values) are untouched, and the table is
unchanged precisely when its index already equals its frame column. -/
theorem imsd_emsd_input_effect (t : Table) :
    (imsdInputAfter t).recs = t.recs ∧ (emsdInputAfter t).recs = t.recs ∧
    (imsdInputAfter t).index = t.recs.map TrajRec.frame ∧
    (emsdInputAfter t).index = t.recs.map TrajRec.frame ∧
    ((imsdInputAfter t = t) ↔ t.index = t.recs.map TrajRec.frame) ∧
    ((emsdInputAfter t = t) ↔ t.index = t.recs.map TrajRec.frame) := by
  obtain ⟨idx, recs⟩ := t
  refine ⟨rfl, rfl, rfl, rfl, ?_, ?_⟩
  all_goals
    constructor
    · intro h
      have h2 := congrArg Table.index h
      exact h2.symm
    · intro h
      simp only [imsdInputAfter, emsdInputAfter, setIndexFrame, Table.mk.injEq]
      exact ⟨h.symm, trivial⟩

/-- Claim C9 witness: a table whose index already equals its frame column
passes through `imsd`/`emsd` unchanged. -/
theorem imsd_emsd_input_effect_witness :
    imsdInputAfter t9b = t9b ∧ emsdInputAfter t9b = t9b := by
  have h := imsd_emsd_input_effect t9b
  exact ⟨h.2.2.2.2.1.mpr (by decide), h.2.2.2.2.2.mpr (by decide)⟩

/-- Claim C10: `subtract_drift` changes only the x and y values of each
record: every (probe, frame) record of the input keeps its probe id and
frame number, its position becomes the input position minus the drift
curve's (x, y) at that frame, and it is unchanged at frames where the drift
curve has no value.  No records are added or dropped. -/
theorem subtract_drift_only_moves_xy (traj : List TrajRec)
    (drift : List (ℤ × ℚ × ℚ)) (i : ℕ) (r : TrajRec)
    (h : traj.get? i = some r) :
    (subtract_drift traj drift).length = traj.length ∧
    ∃ r', (subtract_drift traj drift).get? i = some r' ∧
      r'.probe = r.probe ∧ r'.frame = r.frame ∧
      (∀ dx dy, lookupDrift r.frame drift = some (dx, dy) →
        r'.x = r.x - dx ∧ r'.y = r.y - dy) ∧
      (lookupDrift r.frame drift = none → r' = r) := by
  refine ⟨by simp [subtract_drift], ?_⟩
  have hr' : (subtract_drift traj drift).get? i = some
      { probe := r.probe - 0, frame := r.frame - 0,
        x := r.x - ((lookupDrift r.frame drift).map Prod.fst).getD 0,
        y := r.y - ((lookupDrift r.frame drift).map Prod.snd).getD 0 } := by
    unfold subtract_drift
    rw [List.get?_map, h]
    rfl
  refine ⟨_, hr', by simp, by simp, ?_, ?_⟩
  · intro dx dy hd
    simp [hd]
  · intro hd
    obtain ⟨p, f, x, y⟩ := r
    simp [hd, TrajRec.mk.injEq]

/-- Claim C10 witness: drift (1,2) at frame 0 moves the record (10,20) to
(9,18), keeping probe and frame. -/
theorem subtract_drift_only_moves_xy_witness :
    ∃ r', (subtract_drift extraj exdrift).get? 0 = some r' ∧
      r'.probe = 1 ∧ r'.frame = 0 ∧ r'.x = 9 ∧ r'.y = 18 := by
  obtain ⟨hlen, r', hr', hp, hf, hxy, hnone⟩ :=
    subtract_drift_only_moves_xy extraj exdrift 0 ⟨1, 0, 10, 20⟩ rfl
  obtain ⟨hx, hy⟩ := hxy 1 2 (by decide)
  refine ⟨r', hr', hp, hf, ?_, ?_⟩
  · rw [hx]; norm_num
  · rw [hy]; norm_num

/-- Claim C4 counterexample: for a probe visiting two points at distance
d = 5 with threshold 3 and mpp = 1/10, `is_not_dirt` returns true (5 > 3)
although `d*mpp > threshold` is false (0.5 > 3 fails) — the source never
multiplies by `mpp`. -/
theorem is_not_dirt_ignores_mpp :
    diagSize dirtTraj = 5 ∧ isNotDirtProbe dirtTraj 3 (1/10) ∧
      ¬ ((5 : ℝ) * ((1 : ℝ) / 10) > 3) := by
  have h5 : diagSize dirtTraj = 5 := by
    show Real.sqrt (((listMaxQ [0, 5] - listMinQ [0, 5] : ℚ) : ℝ) ^ 2 +
      ((listMaxQ [0, 0] - listMinQ [0, 0] : ℚ) : ℝ) ^ 2) = 5
    rw [show listMaxQ [(0 : ℚ), 5] = max 0 5 from rfl,
        show listMinQ [(0 : ℚ), 5] = min 0 5 from rfl,
        show listMaxQ [(0 : ℚ), 0] = max 0 0 from rfl,
        show listMinQ [(0 : ℚ), 0] = min 0 0 from rfl]
    rw [max_eq_right (by norm_num : (0 : ℚ) ≤ 5),
        min_eq_left (by norm_num : (0 : ℚ) ≤ 5), max_self, min_self]
    rw [show ((((5 : ℚ) - 0 : ℚ) : ℝ) ^ 2 + (((0 : ℚ) - 0 : ℚ) : ℝ) ^ 2) = 5 ^ 2 by
      push_cast; norm_num]
    exact Real.sqrt_sq (by norm_num)
  refine ⟨h5, ?_, by norm_num⟩
  unfold isNotDirtProbe
  rw [h5]
  norm_num

/-- Claim C4 (amended): for a probe whose records visit exactly two points
at Euclidean distance d, `is_not_dirt` returns true iff `d > threshold` —
the `mpp` argument is accepted but ignored (the docstring says it is
"assumed to be 1"), so positions stay in pixels. -/
theorem is_not_dirt_two_point_rule (f1 f2 : ℤ) (a b : Pt) (threshold mpp : ℚ) :
    isNotDirtProbe [(f1, a), (f2, b)] threshold mpp ↔
      (threshold : ℝ) <
        Real.sqrt (((a.x - b.x : ℚ) : ℝ) ^ 2 + ((a.y - b.y : ℚ) : ℝ) ^ 2) := by
  unfold isNotDirtProbe diagSize
  simp only [List.map_cons, List.map_nil]
  have hx : ((listMaxQ [a.x, b.x] - listMinQ [a.x, b.x] : ℚ) : ℝ) ^ 2 =
      ((a.x - b.x : ℚ) : ℝ) ^ 2 := by
    rw [show listMaxQ [a.x, b.x] = max a.x b.x from rfl,
        show listMinQ [a.x, b.x] = min a.x b.x from rfl]
    rcases le_total a.x b.x with h | h
    · rw [max_eq_right h, min_eq_left h]
      push_cast
      ring
    · rw [max_eq_left h, min_eq_right h]
  have hy : ((listMaxQ [a.y, b.y] - listMinQ [a.y, b.y] : ℚ) : ℝ) ^ 2 =
      ((a.y - b.y : ℚ) : ℝ) ^ 2 := by
    rw [show listMaxQ [a.y, b.y] = max a.y b.y from rfl,
        show listMinQ [a.y, b.y] = min a.y b.y from rfl]
    rcases le_total a.y b.y with h | h
    · rw [max_eq_right h, min_eq_left h]
      push_cast
      ring
    · rw [max_eq_left h, min_eq_right h]
  rw [hx, hy]

/-- Claim C5 counterexample: a position table on frames 10..12 (span 2) with
requested lag 5 — beyond the span — is accepted without error: the source
compares the lag against the LAST FRAME INDEX (12), not the span. -/
theorem vanhove_lag_beyond_span_accepted :
    exceptOk (vanhove vrows 5 1) = true ∧ (12 - 10 : ℤ) < 5 := by
  constructor
  · decide
  · decide

/-- Claim C5 (amended): `vanhove` raises (returns no table) precisely when
the requested lag exceeds the last observed frame index
(`assert lagtime <= pos.index.values.max()`, line 359); this equals the
frame span only when the first frame is 0. -/
theorem vanhove_raises_iff_lag_beyond_last (rows : List (ℤ × List (Option ℚ)))
    (lagtime : ℤ) (mpp : ℚ) (r0 rl : ℤ × List (Option ℚ))
    (hhead : rows.head? = some r0) (hlast : rows.getLast? = some rl)
    (hle : r0.1 ≤ rl.1) :
    exceptOk (vanhove rows lagtime mpp) = decide (lagtime ≤ rl.1) := by
  cases rows with
  | nil => simp at hhead
  | cons r t =>
      have hr : r = r0 := by simpa using hhead
      subst hr
      have hgl : (r :: t).getLast (List.cons_ne_nil r t) = rl := by
        have h2 := List.getLast?_eq_getLast (r :: t) (List.cons_ne_nil r t)
        rw [h2] at hlast
        exact Option.some_injective _ hlast
      have hdense : ∀ w : ℕ, (reindexRows (r :: t) w).map Prod.fst =
          arange r.1 (1 + rl.1) := by
        intro w
        unfold reindexRows
        rw [List.map_map, hgl]
        have h3 : (Prod.fst ∘ fun f => ((f : ℤ),
            ((((r :: t).find? (fun q => q.1 == f)).map Prod.snd).getD
              (List.replicate w none)))) = id := by
          funext f
          rfl
        rw [h3, List.map_id]
      unfold vanhove
      simp only [hdense, listMaxZ_arange r.1 rl.1 hle]
      by_cases hc : lagtime ≤ rl.1 <;> simp [hc, exceptOk]

/-- Claim C5 witness: on the frames-10..12 table, lag 13 (beyond the last
frame) does raise. -/
theorem vanhove_raises_iff_lag_beyond_last_witness :
    exceptOk (vanhove vrows 13 1) = false := by
  have h := vanhove_raises_iff_lag_beyond_last vrows 13 1 (10, [some 0])
    (12, [some 0]) (by decide) (by decide) (by decide)
  simpa using h

theorem reindex_cons_eq (r : ℤ × Pt) (t : List (ℤ × Pt)) :
    reindex (r :: t) =
      (arange r.1 (1 + ((r :: t).getLast (List.cons_ne_nil r t)).1)).map
        (fun f => (f, lookupFrame f (r :: t))) := rfl

theorem arange_get? (a b : ℤ) (i : ℕ) :
    (arange a b).get? i =
      if (i : ℤ) < b - a then some (a + (i : ℤ)) else none := by
  unfold arange
  rw [List.get?_map]
  rcases lt_or_le (i : ℤ) (b - a) with h | h
  · rw [List.get?_range (by omega : i < (b - a).toNat)]
    simp [h]
  · have h2 : (b - a).toNat ≤ i := by omega
    rw [List.get?_eq_none.mpr (by simpa using h2)]
    simp [not_lt.mpr h]

/-- Claim C7: for a trajectory whose observed frames already form a
consecutive integer range, the frame reindexing step is a no-op — the
densified series carries exactly the observed records (each wrapped as
present) — and its frames are exactly the observed frames, none outside
the observed range. -/
theorem reindex_dense_noop (f0 : ℤ) (ps : List Pt) :
    reindex (consecTraj f0 ps) =
      (consecTraj f0 ps).map (fun r => (r.1, some r.2)) ∧
    (reindex (consecTraj f0 ps)).map Prod.fst =
      (consecTraj f0 ps).map Prod.fst := by
  have hmain : reindex (consecTraj f0 ps) =
      (consecTraj f0 ps).map (fun r => (r.1, some r.2)) := by
    cases ps with
    | nil => rfl
    | cons p t =>
        have hlast1 := consecTraj_last_frame f0 p t
        rw [consecTraj_cons] at hlast1
        rw [List.getLast?_eq_getLast ((f0, p) :: consecTraj (f0 + 1) t)
          (List.cons_ne_nil _ _), Option.map_some'] at hlast1
        have hlast : (((f0, p) :: consecTraj (f0 + 1) t).getLast
            (List.cons_ne_nil _ _)).1 = f0 + (t.length : ℤ) :=
          Option.some_injective _ hlast1
        rw [consecTraj_cons]
        rw [reindex_cons_eq, hlast]
        rw [← consecTraj_cons]
        apply List.ext_get?_iff.mpr
        intro i
        rw [List.get?_map, arange_get?, List.get?_map, consecTraj_get?]
        rcases lt_or_le i (t.length + 1) with h | h
        · rw [if_pos (by push_cast; omega)]
          have hi : i < (p :: t).length := by simpa using h
          rw [List.get?_eq_get hi]
          simp only [Option.map_some']
          show some (f0 + (i : ℤ),
            lookupFrame (f0 + (i : ℤ)) (consecTraj f0 (p :: t))) = _
          rw [consecTraj_lookup (p :: t) f0 i, List.get?_eq_get hi]
        · rw [if_neg (by push_cast; omega)]
          rw [List.get?_eq_none.mpr (by simpa using h)]
          rfl
  refine ⟨hmain, ?_⟩
  rw [hmain, List.map_map]
  have h : (Prod.fst ∘ fun r : ℤ × Pt => (r.1, some r.2)) = Prod.fst := by
    funext r
    rfl
  rw [h]

/-- Claim C7 witness: a concrete dense two-frame trajectory reindexes to
itself. -/
theorem reindex_dense_noop_witness :
    reindex (consecTraj 3 [⟨1, 2⟩, ⟨3, 4⟩]) =
      (consecTraj 3 [⟨1, 2⟩, ⟨3, 4⟩]).map (fun r => (r.1, some r.2)) ∧
    (reindex (consecTraj 3 [⟨1, 2⟩, ⟨3, 4⟩])).map Prod.fst =
      (consecTraj 3 [⟨1, 2⟩, ⟨3, 4⟩]).map Prod.fst :=
  reindex_dense_noop 3 [⟨1, 2⟩, ⟨3, 4⟩]

theorem tpCorrRaw_T3_eval : tpCorrRaw T3 1 =
    [tpRowAt ⟨0, 1⟩ ⟨1, 1⟩ ⟨0, 1⟩ ⟨0, 1⟩] := by
  have hp1 : ptrajOf T3 1 = [(0, ⟨0, 0⟩), (1, ⟨0, 1⟩)] := by decide
  have hp2 : ptrajOf T3 2 = [(0, ⟨1, 0⟩), (1, ⟨1, 1⟩)] := by decide
  have hpair : pairsOf (probeIds T3) = [(1, 2)] := by decide
  have hd1 : dispTable (ptrajOf T3 1) 1 = [(0, none), (1, some ⟨0, 1⟩)] := by
    rw [hp1]
    have hr : reindex [((0 : ℤ), (⟨0, 0⟩ : Pt)), (1, ⟨0, 1⟩)] =
        [(0, some ⟨0, 0⟩), (1, some ⟨0, 1⟩)] := by decide
    simp only [dispTable, hr]
    norm_num [shiftList, optSub, Pt.mk.injEq]
  have hd2 : dispTable (ptrajOf T3 2) 1 = [(0, none), (1, some ⟨0, 1⟩)] := by
    rw [hp2]
    have hr : reindex [((0 : ℤ), (⟨1, 0⟩ : Pt)), (1, ⟨1, 1⟩)] =
        [(0, some ⟨1, 0⟩), (1, some ⟨1, 1⟩)] := by decide
    simp only [dispTable, hr]
    norm_num [shiftList, optSub, Pt.mk.injEq]
  have hu : unionFrames (ptrajOf T3 1) (ptrajOf T3 2) = [0, 1] := by
    rw [hp1, hp2]
    decide
  have hq1 : posLookup (ptrajOf T3 1) 1 = some ⟨0, 1⟩ := by
    rw [hp1]
    decide
  have hq2 : posLookup (ptrajOf T3 2) 1 = some ⟨1, 1⟩ := by
    rw [hp2]
    decide
  have hq10 : posLookup (ptrajOf T3 1) 0 = some ⟨0, 0⟩ := by
    rw [hp1]
    decide
  have hq20 : posLookup (ptrajOf T3 2) 0 = some ⟨1, 0⟩ := by
    rw [hp2]
    decide
  have hdl1 : dispLookup (ptrajOf T3 1) 1 1 = some ⟨0, 1⟩ := by
    unfold dispLookup
    rw [hd1]
    rfl
  have hdl2 : dispLookup (ptrajOf T3 2) 1 1 = some ⟨0, 1⟩ := by
    unfold dispLookup
    rw [hd2]
    rfl
  have hdl10 : dispLookup (ptrajOf T3 1) 1 0 = none := by
    unfold dispLookup
    rw [hd1]
    rfl
  have hdata : tpPairData (ptrajOf T3 1) (ptrajOf T3 2) 1 =
      [(⟨0, 1⟩, ⟨1, 1⟩, ⟨0, 1⟩, ⟨0, 1⟩)] := by
    unfold tpPairData
    rw [hu]
    simp only [List.filterMap_cons, List.filterMap_nil, hq1, hq2, hq10, hq20,
      hdl1, hdl2, hdl10]
    norm_num [Pt.mk.injEq]
  unfold tpCorrRaw
  rw [hpair]
  simp only [List.map_cons, List.map_nil, List.flatten_cons, List.flatten_nil,
    List.append_nil]
  unfold tpPairRows
  rw [hdata]
  simp only [List.map_cons, List.map_nil]

/-- Claim C3 counterexample: two probes at distinct positions with the SAME
displacement (0,1), perpendicular to their separation, get the row
(R, para, perp) = (1, 0, 1): `para` is 0, not |disp|^2 = 1, and `perp` is
1, not 0. -/
theorem tp_corr_identical_motion_counterexample :
    tpCorrRaw T3 1 = [⟨1, 0, 1⟩] ∧
      ¬((0 : ℝ) = 0 ^ 2 + 1 ^ 2) ∧ ¬((1 : ℝ) = 0) := by
  refine ⟨?_, by norm_num, by norm_num⟩
  rw [tpCorrRaw_T3_eval]
  unfold tpRowAt tpR tpPara tpPerp ptR
  simp only [TpRow.mk.injEq]
  norm_num [Real.sqrt_one]

/-- Claim C3 (amended): for a pair with the same displacement `d` at both
probes and nonzero separation, the correlator's row satisfies
`para = (d·n)^2` and `perp = (d·p)^2`; in particular `para = |d|^2` and
`perp = 0` holds when `d` is PARALLEL to the pair's separation vector
(which the claim's scenario omits to require). -/
theorem tp_corr_parallel_same_disp (p1 p2 d : ℝ × ℝ)
    (hne : ¬(p1.1 - p2.1 = 0 ∧ p1.2 - p2.2 = 0))
    (hpar : d.1 * (p1.2 - p2.2) = d.2 * (p1.1 - p2.1)) :
    tpPara p1 p2 d d = d.1 ^ 2 + d.2 ^ 2 ∧ tpPerp p1 p2 d d = 0 := by
  have hS : (0 : ℝ) < (p1.1 - p2.1) ^ 2 + (p1.2 - p2.2) ^ 2 := by
    rcases not_and_or.mp hne with h | h
    · nlinarith [sq_pos_of_ne_zero h, sq_nonneg (p1.2 - p2.2)]
    · nlinarith [sq_pos_of_ne_zero h, sq_nonneg (p1.1 - p2.1)]
  have hrne : Real.sqrt ((p1.1 - p2.1) ^ 2 + (p1.2 - p2.2) ^ 2) ≠ 0 :=
    (Real.sqrt_pos.mpr hS).ne'
  have hsq : Real.sqrt ((p1.1 - p2.1) ^ 2 + (p1.2 - p2.2) ^ 2) *
      Real.sqrt ((p1.1 - p2.1) ^ 2 + (p1.2 - p2.2) ^ 2) =
      (p1.1 - p2.1) ^ 2 + (p1.2 - p2.2) ^ 2 := Real.mul_self_sqrt hS.le
  constructor
  · simp only [tpPara]
    field_simp
    nlinarith [hpar, hsq]
  · simp only [tpPerp]
    field_simp
    nlinarith [hpar, hsq]

/-- Claim C3 witness: probes at (0,0) and (1,0) sharing displacement (2,0)
parallel to their separation do give `para = |d|^2 = 4` and `perp = 0`. -/
theorem tp_corr_parallel_same_disp_witness :
    tpPara (0, 0) (1, 0) (2, 0) (2, 0) = (2 : ℝ) ^ 2 + 0 ^ 2 ∧
      tpPerp (0, 0) (1, 0) (2, 0) (2, 0) = 0 :=
  tp_corr_parallel_same_disp (0, 0) (1, 0) (2, 0) (by norm_num) (by norm_num)

theorem tpCorrRaw_T2_eval : tpCorrRaw T2 1 =
    [tpRowAt ⟨1, 0⟩ ⟨6, 0⟩ ⟨1, 0⟩ ⟨1, 0⟩] := by
  have hp1 : ptrajOf T2 1 = [(0, ⟨0, 0⟩), (1, ⟨1, 0⟩)] := by decide
  have hp2 : ptrajOf T2 2 = [(0, ⟨5, 0⟩), (1, ⟨6, 0⟩)] := by decide
  have hpair : pairsOf (probeIds T2) = [(1, 2)] := by decide
  have hd1 : dispTable (ptrajOf T2 1) 1 = [(0, none), (1, some ⟨1, 0⟩)] := by
    rw [hp1]
    have hr : reindex [((0 : ℤ), (⟨0, 0⟩ : Pt)), (1, ⟨1, 0⟩)] =
        [(0, some ⟨0, 0⟩), (1, some ⟨1, 0⟩)] := by decide
    simp only [dispTable, hr]
    norm_num [shiftList, optSub, Pt.mk.injEq]
  have hd2 : dispTable (ptrajOf T2 2) 1 = [(0, none), (1, some ⟨1, 0⟩)] := by
    rw [hp2]
    have hr : reindex [((0 : ℤ), (⟨5, 0⟩ : Pt)), (1, ⟨6, 0⟩)] =
        [(0, some ⟨5, 0⟩), (1, some ⟨6, 0⟩)] := by decide
    simp only [dispTable, hr]
    norm_num [shiftList, optSub, Pt.mk.injEq]
  have hu : unionFrames (ptrajOf T2 1) (ptrajOf T2 2) = [0, 1] := by
    rw [hp1, hp2]
    decide
  have hq1 : posLookup (ptrajOf T2 1) 1 = some ⟨1, 0⟩ := by
    rw [hp1]
    decide
  have hq2 : posLookup (ptrajOf T2 2) 1 = some ⟨6, 0⟩ := by
    rw [hp2]
    decide
  have hq10 : posLookup (ptrajOf T2 1) 0 = some ⟨0, 0⟩ := by
    rw [hp1]
    decide
  have hq20 : posLookup (ptrajOf T2 2) 0 = some ⟨5, 0⟩ := by
    rw [hp2]
    decide
  have hdl1 : dispLookup (ptrajOf T2 1) 1 1 = some ⟨1, 0⟩ := by
    unfold dispLookup
    rw [hd1]
    rfl
  have hdl2 : dispLookup (ptrajOf T2 2) 1 1 = some ⟨1, 0⟩ := by
    unfold dispLookup
    rw [hd2]
    rfl
  have hdl10 : dispLookup (ptrajOf T2 1) 1 0 = none := by
    unfold dispLookup
    rw [hd1]
    rfl
  have hdata : tpPairData (ptrajOf T2 1) (ptrajOf T2 2) 1 =
      [(⟨1, 0⟩, ⟨6, 0⟩, ⟨1, 0⟩, ⟨1, 0⟩)] := by
    unfold tpPairData
    rw [hu]
    simp only [List.filterMap_cons, List.filterMap_nil, hq1, hq2, hq10, hq20,
      hdl1, hdl2, hdl10]
    norm_num [Pt.mk.injEq]
  unfold tpCorrRaw
  rw [hpair]
  simp only [List.map_cons, List.map_nil, List.flatten_cons, List.flatten_nil,
    List.append_nil]
  unfold tpPairRows
  rw [hdata]
  simp only [List.map_cons, List.map_nil]

/-- Claim C6 (code bug): `tp_corr` multiplies EVERY output column by `mpp`
once (`result *= mpp`, line 207), so the displacement-product columns
`para`/`perp` scale linearly in `mpp`, not as `mpp^2`, contradicting the
module's own unit convention (its docstring promises micron outputs, and
`msd` scales squared displacements by `mpp**2`).  On two probes 5 px apart
each moving 1 px along their separation with `mpp = 2`: the code returns
`(R, para, perp) = (10, 2, 0)` — `para` is twice, not four times, the
`mpp = 1` value `(5, 1, 0)`. -/
theorem tp_corr_scales_para_by_mpp_once :
    tp_corr T2 2 1 [1] = [⟨10, 2, 0⟩] ∧ tp_corr T2 1 1 [1] = [⟨5, 1, 0⟩] ∧
      ¬((2 : ℝ) = 2 ^ 2 * 1) := by
  have hrow : tpRowAt ⟨1, 0⟩ ⟨6, 0⟩ ⟨1, 0⟩ ⟨1, 0⟩ = ⟨5, 1, 0⟩ := by
    unfold tpRowAt tpR tpPara tpPerp ptR
    have harg : ((((1 : ℚ) : ℝ)) - (((6 : ℚ) : ℝ))) ^ 2 +
        ((((0 : ℚ) : ℝ)) - (((0 : ℚ) : ℝ))) ^ 2 = 25 := by
      push_cast
      norm_num
    simp only [TpRow.mk.injEq, harg]
    have h25 : Real.sqrt 25 = 5 := by
      rw [show (25 : ℝ) = 5 ^ 2 by norm_num]
      exact Real.sqrt_sq (by norm_num)
    rw [h25]
    push_cast
    norm_num
  refine ⟨?_, ?_, by norm_num⟩
  all_goals
    unfold tp_corr
    simp only [List.map_cons, List.map_nil]
    rw [tpCorrRaw_T2_eval, hrow]
    simp only [List.map_cons, List.map_nil, List.flatten_cons, List.flatten_nil,
      List.append_nil, TpRow.mk.injEq]
    push_cast
    norm_num

/-- Claim C1: at a lag where every probe has a defined MSD value and sample
count, `emsd` returns the N-weighted mean of the per-probe MSD values: with
two probes carrying values `m1, m2` and counts `N1, N2` at lag `L`, the
ensemble MSD at `L` is `(m1*N1 + m2*N2) / (N1 + N2)`. -/
theorem emsd_weighted_mean (T : List TrajRec) (mpp fps : ℚ) (maxlag : ℕ)
    (p1 p2 : ℤ) (s1 s2 : PTraj) (r1 r2 : MsdRow) (m1 m2 N1 N2 : ℚ) (L : ℕ)
    (hg : groupByProbe T = [(p1, s1), (p2, s2)])
    (h1 : rowAt (msdOutput s1 mpp fps true maxlag) L = some r1)
    (h2 : rowAt (msdOutput s2 mpp fps true maxlag) L = some r2)
    (hm1 : r1.msdVal = m1) (hm2 : r2.msdVal = m2)
    (hN1 : r1.N = some N1) (hN2 : r2.N = some N2) :
    emsdMsdAt T mpp fps maxlag L = some ((m1 * N1 + m2 * N2) / (N1 + N2)) := by
  have htb : emsdTables T mpp fps maxlag =
      [msdOutput s1 mpp fps true maxlag, msdOutput s2 mpp fps true maxlag] := by
    unfold emsdTables
    rw [hg]
    rfl
  have hr1mem : r1 ∈ msdOutput s1 mpp fps true maxlag :=
    List.mem_of_find?_eq_some h1
  have hr1lag : r1.lag = L := by
    have h3 := List.find?_some h1
    simpa using h3
  have hLmem : L ∈ allLags (emsdTables T mpp fps maxlag) := by
    rw [htb]
    unfold allLags
    rw [mem_sortList, List.mem_dedup]
    simp only [List.map_cons, List.map_nil, List.flatten_cons, List.flatten_nil,
      List.append_nil, List.mem_append, List.mem_map]
    exact Or.inl ⟨r1, hr1mem, hr1lag⟩
  have hfind : (emsdRows T mpp fps maxlag).find? (fun row => row.lagKey == L) =
      some (emsdRowAt (emsdTables T mpp fps maxlag) L) := by
    unfold emsdRows
    exact find?_key_map EmsdRow.lagKey _ (fun a => rfl) L _ hLmem
  unfold emsdMsdAt
  rw [hfind, Option.map_some']
  congr 1
  have hpresent :
      (emsdTables T mpp fps maxlag).filterMap (fun tb => rowAt tb L) =
        [r1, r2] := by
    rw [htb]
    simp only [List.filterMap_cons, List.filterMap_nil, h1, h2]
  unfold emsdRowAt
  rw [hpresent]
  simp only [List.map_cons, List.map_nil, hm1, hm2, hN1, hN2, Option.getD_some,
    meanQ, List.sum_cons, List.sum_nil, List.length_cons, List.length_nil,
    add_zero, Nat.cast_ofNat]
  exact div_half_div_half (m1 * N1 + m2 * N2) (N1 + N2)

/-- Claim C1 witness: two probes with per-lag MSD values 1 and 4 and sample
counts 2 and 2 at lag 1 give ensemble MSD (1*2 + 4*2)/(2 + 2) = 5/2. -/
theorem emsd_weighted_mean_witness :
    emsdMsdAt emsdT 1 1 2 1 = some ((1 * 2 + 4 * 2) / (2 + 2)) := by
  have hg : groupByProbe emsdT = [(1, ptrajOf emsdT 1), (2, ptrajOf emsdT 2)] := by
    decide
  have hOut1 : msdOutput (ptrajOf emsdT 1) 1 1 true 2 =
      [⟨1, some 1, some 0, some 1, some 0, 1, some 2, 1⟩] := by
    have hp : ptrajOf emsdT 1 = [(0, ⟨0, 0⟩), (1, ⟨1, 0⟩), (2, ⟨2, 0⟩)] := by
      decide
    rw [hp]
    have hr : reindex [((0 : ℤ), (⟨0, 0⟩ : Pt)), (1, ⟨1, 0⟩), (2, ⟨2, 0⟩)] =
        [(0, some ⟨0, 0⟩), (1, some ⟨1, 0⟩), (2, some ⟨2, 0⟩)] := by decide
    have hl : msdLagtimes [((0 : ℤ), (⟨0, 0⟩ : Pt)), (1, ⟨1, 0⟩), (2, ⟨2, 0⟩)] 2 =
        [1, 2] := by decide
    have hm : min 2 (List.length
        [((0 : ℤ), (⟨0, 0⟩ : Pt)), (1, ⟨1, 0⟩), (2, ⟨2, 0⟩)]) = 2 := by decide
    simp only [msdOutput, msdRows, hl, hm, List.map_cons, List.map_nil]
    norm_num [msdRow, dispSeries, dispTable, hr, shiftList, optSub, meanOpt,
      countSome, List.filterMap_cons, List.sum_cons, MsdRow.mk.injEq,
      Pt.mk.injEq]
  have hOut2 : msdOutput (ptrajOf emsdT 2) 1 1 true 2 =
      [⟨1, some 2, some 0, some 4, some 0, 4, some 2, 1⟩] := by
    have hp : ptrajOf emsdT 2 = [(0, ⟨0, 0⟩), (1, ⟨2, 0⟩), (2, ⟨4, 0⟩)] := by
      decide
    rw [hp]
    have hr : reindex [((0 : ℤ), (⟨0, 0⟩ : Pt)), (1, ⟨2, 0⟩), (2, ⟨4, 0⟩)] =
        [(0, some ⟨0, 0⟩), (1, some ⟨2, 0⟩), (2, some ⟨4, 0⟩)] := by decide
    have hl : msdLagtimes [((0 : ℤ), (⟨0, 0⟩ : Pt)), (1, ⟨2, 0⟩), (2, ⟨4, 0⟩)] 2 =
        [1, 2] := by decide
    have hm : min 2 (List.length
        [((0 : ℤ), (⟨0, 0⟩ : Pt)), (1, ⟨2, 0⟩), (2, ⟨4, 0⟩)]) = 2 := by decide
    simp only [msdOutput, msdRows, hl, hm, List.map_cons, List.map_nil]
    norm_num [msdRow, dispSeries, dispTable, hr, shiftList, optSub, meanOpt,
      countSome, List.filterMap_cons, List.sum_cons, MsdRow.mk.injEq,
      Pt.mk.injEq]
  have h1 : rowAt (msdOutput (ptrajOf emsdT 1) 1 1 true 2) 1 =
      some ⟨1, some 1, some 0, some 1, some 0, 1, some 2, 1⟩ := by
    rw [hOut1]
    rfl
  have h2 : rowAt (msdOutput (ptrajOf emsdT 2) 1 1 true 2) 1 =
      some ⟨1, some 2, some 0, some 4, some 0, 4, some 2, 1⟩ := by
    rw [hOut2]
    rfl
  exact emsd_weighted_mean emsdT 1 1 2 1 2 (ptrajOf emsdT 1) (ptrajOf emsdT 2)
    _ _ 1 4 2 2 1 hg h1 h2 rfl rfl rfl rfl
